import Mathlib

set_option linter.unusedVariables false

/- Shallow embedding of the fracture package (mikemalinowski/fracture).

   The Python modules under fracture/ are translated into executable Lean
   definitions.  The sqlite statement files fracture/sql/*.sql are part of
   the shipped package (setup.py lists sql/*.sql as package_data) but are
   not present among the sources available here; wherever a definition
   depends on one of those statements it is modelled from the
   specification and its doc comment says so.  The small external helper
   libraries the package imports (factories, xcomposite, json) are
   likewise modelled from the specification where their behaviour
   matters. -/

/-- Constant from fracture/_scan.py: ScanProcess.IS_VALID. -/
def IS_VALID : Nat := 0

/-- Constant from fracture/_scan.py: ScanProcess.NOT_VALID. -/
def NOT_VALID : Nat := 1

/-- Constant from fracture/_scan.py: ScanProcess.UNKNOWN. -/
def UNKNOWN : Nat := 2

/-- A registered DataElement plugin class (fracture/_element.py): its
data_type, version and priority class attributes, its can_represent
class method, and the mandatory_tags list it contributes for an
identifier. -/
structure DataPlugin where
  data_type : String
  version : Nat
  priority : Int
  can_represent : String → Bool
  mandatory_tags : String → List String

/-- Modelled from the spec: the external factories library used by
Project.__init__ deduplicates registered plugins by kind, keeping the
highest version.  This helper folds over the registered plugins keeping
the best candidate of one kind, preferring the earlier plugin on a
version tie. -/
def bestAux (k : String) : Option DataPlugin → List DataPlugin → Option DataPlugin
  | best, [] => best
  | best, p :: ps =>
    if p.data_type = k then
      match best with
      | none => bestAux k (some p) ps
      | some b =>
        if b.version < p.version then bestAux k (some p) ps else bestAux k (some b) ps
    else bestAux k best ps

/-- Modelled from the spec: the highest-version registered plugin of one
kind, if any plugin of that kind is registered. -/
def bestForKind (regs : List DataPlugin) (k : String) : Option DataPlugin :=
  bestAux k none regs

/-- Modelled from the spec: factories.Factory.plugins() as used by
Project.__init__ — one plugin per registered kind, the highest version
of that kind. -/
def factoryPlugins (regs : List DataPlugin) : List DataPlugin :=
  ((regs.map (fun p => p.data_type)).dedup).filterMap (bestForKind regs)

/-- Project.__init__ (fracture/_project.py lines 78-82): the data plugins
are cached sorted by priority, highest first. -/
def dataPluginsSorted (regs : List DataPlugin) : List DataPlugin :=
  List.insertionSort (fun p q => q.priority ≤ p.priority) (factoryPlugins regs)

/-- Project.get (fracture/_project.py lines 643-672): cycle the cached,
priority-sorted data plugins and bind every one whose can_represent
holds for the identifier.  The resulting list of bound plugins is the
composite; the empty list models the None template returned when no
plugin matches. -/
def projectGet (regs : List DataPlugin) (identifier : String) : List DataPlugin :=
  (dataPluginsSorted regs).filter (fun p => p.can_represent identifier)

/-- DataElement.mandatory_tags under the xcomposite extend_unique policy
(fracture/_element.py line 96): the lists contributed by every bound
plugin are concatenated and deduplicated. -/
def mandatoryTags (regs : List DataPlugin) (identifier : String) : List String :=
  ((projectGet regs identifier).map (fun p => p.mandatory_tags identifier)).flatten.dedup

/-- A registered ScanProcess plugin (fracture/_scan.py): a discovery
source.  The identifiers field models the sequence the plugin yields for
one location under the configured skip pattern and recursion flag, which
are held fixed. -/
structure ScanPlugin where
  can_represent : String → Bool
  identifiers : String → List String
  check : String → Nat

/-- Persisted catalog state: the identifier rows, tag rows, and
identifier-to-tag link rows of the sqlite database. -/
structure Catalog where
  members : List String
  tagRows : List String
  links : List (String × String)

/-- Modelled from the spec: the add sql statement — idempotent insert of
an identifier row. -/
def catalogAdd (c : Catalog) (id : String) : Catalog :=
  if id ∈ c.members then c else { c with members := c.members ++ [id] }

/-- Modelled from the spec: the tag_insert sql statement — idempotent
insert of a tag row. -/
def tagInsert (c : Catalog) (t : String) : Catalog :=
  if t ∈ c.tagRows then c else { c with tagRows := c.tagRows ++ [t] }

/-- Modelled from the spec: the tag_connect sql statement — link an
identifier to a tag; the duplicate-link conflict raised on re-scanning
is swallowed (Project.scan catches sqlite3.IntegrityError), so the
insert is idempotent. -/
def tagConnect (c : Catalog) (id t : String) : Catalog :=
  if (id, t) ∈ c.links then c else { c with links := c.links ++ [(id, t)] }

/-- Modelled from the spec: the remove sql statement — destroy the
catalog entry: the identifier row together with its tag links. -/
def catalogRemove (c : Catalog) (id : String) : Catalog :=
  { c with
      members := c.members.filter (fun m => m ≠ id),
      links := c.links.filter (fun l => l.1 ≠ id) }

/-- Modelled from the spec: the find_all sql statement behind find(None)
— every identifier row; the default limit of 9 ** 9 is an effectively
unbounded cap. -/
def findAllIds (c : Catalog) : List String := c.members

/-- Project.scan pruning test (fracture/_project.py lines 613-617): true
when some scan plugin's check returns NOT_VALID for the identifier. -/
def anyNotValid (plugins : List ScanPlugin) (id : String) : Bool :=
  plugins.any (fun p => p.check id == NOT_VALID)

/-- Project.scan discovery (fracture/_project.py lines 529-558): for each
location in order, every scan plugin able to represent it yields its
identifiers; the concatenation in that nesting order is the scanned
identifier list of the pass. -/
def scanDiscover (plugins : List ScanPlugin) (locations : List String) : List String :=
  (locations.map (fun loc =>
    ((plugins.filter (fun p => p.can_represent loc)).map
      (fun p => p.identifiers loc)).flatten)).flatten

/-- Project.scan tag linking: connect one identifier to each of its
computed tags in order. -/
def linkAll (c : Catalog) (id : String) (ts : List String) : Catalog :=
  ts.foldl (fun acc t => tagConnect acc id t) c

/-- Project.scan pruning phase (fracture/_project.py lines 611-617):
iterate the entire current membership, removing every identifier that
some scan plugin judges NOT_VALID. -/
def pruneCatalog (plugins : List ScanPlugin) (c : Catalog) : Catalog :=
  (findAllIds c).foldl
    (fun acc id => if anyNotValid plugins id then catalogRemove acc id else acc) c

/-- Project.scan with full=True (fracture/_project.py lines 497-625):
discovery inserts every yielded identifier (idempotent add); tagging
collects, for each discovered identifier with a non-empty composite, its
mandatory tags, first inserting every distinct tag row and then linking
each identifier to its tags; pruning then sweeps the whole membership. -/
def projectScan (regs : List DataPlugin) (plugins : List ScanPlugin)
    (locations : List String) (c : Catalog) : Catalog :=
  let scanned := scanDiscover plugins locations
  let c1 := scanned.foldl catalogAdd c
  let mapped := (scanned.filter (fun id => !(projectGet regs id).isEmpty)).dedup
  let allTags := (mapped.map (fun id => mandatoryTags regs id)).flatten.dedup
  let c2 := allTags.foldl tagInsert c1
  let c3 := mapped.foldl (fun acc id => linkAll acc id (mandatoryTags regs id)) c2
  pruneCatalog plugins c3

/-- Tags assigned to one identifier in the catalog (the tags_get view of
the link table). -/
def tagsOf (c : Catalog) (id : String) : List String :=
  (c.links.filter (fun l => l.1 = id)).map (fun l => l.2)

/-- Events observable on a Project's two signals during one scan. -/
inductive ScanEvent
  | scanned (id : String)
  | scanComplete
deriving DecidableEq

/-- Signal.emit (fracture/_utils.py lines 22-24): call every connected
subscriber in order; a raising subscriber propagates its exception to
the emitter. -/
def emitSignal {α : Type} : List (α → Except String Unit) → α → Except String Unit
  | [], _ => .ok ()
  | f :: fs, a =>
    match f a with
    | .ok () => emitSignal fs a
    | .error e => .error e

/-- Project.scan discovery loop event flow: each yielded identifier fires
the scanned signal (the event is recorded at the emit call); an
exception from a subscriber aborts the loop and propagates. -/
def scanLoop (subs : List (String → Except String Unit)) :
    List String → List ScanEvent → List ScanEvent × Option String
  | [], log => (log, none)
  | id :: rest, log =>
    match emitSignal subs (id) with
    | .ok () => scanLoop subs rest (log ++ [ScanEvent.scanned id])
    | .error e => (log ++ [ScanEvent.scanned id], some e)

/-- Project.scan event flow (fracture/_project.py lines 497-625): the
scanned signal fires once per yielded identifier occurrence in discovery
order; scan_complete fires at the end, and only if no subscriber raised
during the pass; the tagging and pruning phases emit nothing. -/
def scanRun (subs : List (String → Except String Unit))
    (csubs : List (Unit → Except String Unit))
    (discovered : List String) : List ScanEvent × Option String :=
  match scanLoop subs discovered [] with
  | (log, some e) => (log, some e)
  | (log, none) =>
    match emitSignal csubs () with
    | .ok () => (log ++ [ScanEvent.scanComplete], none)
    | .error e => (log ++ [ScanEvent.scanComplete], some e)

/-- One row of the elements table: the identifier together with the
display name column matched by the find statement. -/
structure ElementRow where
  identifier : String
  name : String

/-- Substring containment, the semantics of the sql LIKE comparison the
find statement applies (spec: contains the tag as a substring). -/
def hasSub (hay needle : String) : Bool :=
  hay.data.tails.any (fun t => needle.data.isPrefixOf t)

/-- Tags linked to one identifier, as seen by the find statement. -/
def assignedTags (links : List (String × String)) (id : String) : List String :=
  (links.filter (fun l => l.1 = id)).map (fun l => l.2)

/-- Modelled from the spec: the dual predicate of the find sql statement
— either some assigned tag exactly equals one of the given tags, or the
identifier and the display name each contain every given tag as a
substring. -/
def findRowMatch (links : List (String × String)) (ts : List String)
    (r : ElementRow) : Bool :=
  (assignedTags links r.identifier).any (fun t => ts.contains t)
    || (ts.all (fun g => hasSub r.identifier g)
        && ts.all (fun g => hasSub r.name g))

/-- Project.find (fracture/_project.py lines 100-164): a None (or empty,
hence falsy) tags argument runs the find_all statement; any non-empty
tag list — a single string is wrapped into a one-element list, so a
plain star is the list containing the star string — runs the find
statement with the dual predicate; results are capped at the limit,
which defaults to 9 ** 9. -/
def projectFind (rows : List ElementRow) (links : List (String × String))
    (tags : Option (List String)) (limit : Option Nat) : List String :=
  let lim := limit.getD (9 ^ 9)
  match tags with
  | none => (rows.map (fun r => r.identifier)).take lim
  | some ts =>
    if ts.isEmpty then (rows.map (fun r => r.identifier)).take lim
    else ((rows.filter (findRowMatch links ts)).map (fun r => r.identifier)).take lim

/-- Python str.lower, mapping every character to its lowercase form. -/
def pyLower (s : String) : String :=
  ⟨s.data.map Char.toLower⟩

/-- Project.tag (fracture/_project.py lines 167-192): each given tag is
lowercased and linked to the identifier; the tags_add statement is
modelled from the spec as an idempotent link insert. -/
def projectTag (links : List (String × String)) (id : String)
    (tags : List String) : List (String × String) :=
  tags.foldl
    (fun l t => if (id, pyLower t) ∈ l then l else l ++ [(id, pyLower t)]) links

/-- Project.untag (fracture/_project.py lines 195-220): each given tag is
removed exactly as given — no lowercasing happens on this path; the
tags_rem statement is modelled from the spec as an exact-match link
delete. -/
def projectUntag (links : List (String × String)) (id : String)
    (tags : List String) : List (String × String) :=
  tags.foldl (fun l t => l.filter (fun x => x ≠ (id, t))) links

/-- Failure of the external json decoder. -/
inductive JsonErr
  | decodeError
deriving DecidableEq

/-- Project.settings (fracture/_project.py lines 288-301): fetch the
settings rows and json-decode the first one; the IndexError raised when
no row exists is caught and yields the empty map, while a decode failure
is not caught and propagates.  The loads argument stands for json.loads
of the external json library. -/
def projectSettings {α : Type} (loads : String → Except JsonErr α)
    (emptyMap : α) (results : List String) : Except JsonErr α :=
  match results with
  | [] => .ok emptyMap
  | blob :: _ => loads blob

/-- Modelled from the spec: a minimal stand-in for json.loads — it
decodes only the serialized empty list and fails on any malformed
blob. -/
def demoLoads (s : String) : Except JsonErr (List String) :=
  if s = "[]" then .ok [] else .error .decodeError

/-- A python value stored under a settings key: either None or a list of
strings. -/
inductive PyVal
  | pyNone
  | pyList (xs : List String)
deriving DecidableEq

/-- The settings dictionary, a json object of keys to stored values. -/
abbrev SettingsDict := List (String × PyVal)

/-- Python dict.get with a default: the stored value is returned whenever
the key is present, even when that value is None. -/
def dictGet : SettingsDict → String → PyVal → PyVal
  | [], _, dflt => dflt
  | kv :: rest, k, dflt => if kv.1 = k then kv.2 else dictGet rest k dflt

/-- Python dict item assignment on the settings dictionary. -/
def dictSet : SettingsDict → String → PyVal → SettingsDict
  | [], k, v => [(k, v)]
  | kv :: rest, k, v => if kv.1 = k then (k, v) :: rest else kv :: dictSet rest k v

/-- Exceptions python raises on the remove path. -/
inductive PyErr
  | valueError
  | attributeError
deriving DecidableEq

/-- Common shape of Project.remove_scan_location, remove_skip_regex and
remove_plugin_location (fracture/_project.py lines 352-370, 405-422 and
467-494): the statement settings[key] = settings.get(key, list()).remove(item)
stores the return value of list.remove — None — under the key;
list.remove raises ValueError when the item is absent, and calling
remove on a stored None raises AttributeError.  The settings_get and
settings_set sql statements are modelled from the spec as an exact
round-trip of the stored dictionary. -/
def removeSettingKey (db : SettingsDict) (key : String) (item : String) :
    Except PyErr SettingsDict :=
  match dictGet db key (.pyList []) with
  | .pyNone => .error .attributeError
  | .pyList xs =>
    if item ∈ xs then .ok (dictSet db key .pyNone) else .error .valueError

/-- Project.remove_scan_location (fracture/_project.py lines 352-370). -/
def removeScanLocation (db : SettingsDict) (loc : String) : Except PyErr SettingsDict :=
  removeSettingKey db "scan_locations" loc

/-- Project.remove_skip_regex (fracture/_project.py lines 405-422). -/
def removeSkipRegex (db : SettingsDict) (pattern : String) : Except PyErr SettingsDict :=
  removeSettingKey db "skip_regex" pattern

/-- Project.remove_plugin_location (fracture/_project.py lines 467-494);
the factory path updates touch no persisted settings state. -/
def removePluginLocation (db : SettingsDict) (loc : String) : Except PyErr SettingsDict :=
  removeSettingKey db "plugin_locations" loc

/-- Project.scan_locations (fracture/_project.py lines 322-328):
settings().get('scan_locations', list()). -/
def scanLocationsOf (db : SettingsDict) : PyVal :=
  dictGet db "scan_locations" (.pyList [])

/-- Project.skip_regexes (fracture/_project.py lines 373-380):
settings().get('skip_regex', list()). -/
def skipRegexesOf (db : SettingsDict) : PyVal :=
  dictGet db "skip_regex" (.pyList [])

/-- Project.plugin_locations (fracture/_project.py lines 425-432):
settings().get('plugin_locations', list()). -/
def pluginLocationsOf (db : SettingsDict) : PyVal :=
  dictGet db "plugin_locations" (.pyList [])

/-- A sample registered trait of kind k at version 1 that represents
every identifier. -/
def demoTraitV1 : DataPlugin :=
  { data_type := "k", version := 1, priority := 1,
    can_represent := fun _ => true, mandatory_tags := fun _ => ["v1"] }

/-- A sample registered trait of the same kind k at version 2. -/
def demoTraitV2 : DataPlugin :=
  { data_type := "k", version := 2, priority := 1,
    can_represent := fun _ => true, mandatory_tags := fun _ => ["v2"] }

/-- A sample discovery source that judges the identifier bad NOT_VALID
and anything else UNKNOWN. -/
def demoChecker : ScanPlugin :=
  { can_represent := fun _ => true, identifiers := fun _ => [],
    check := fun s => if s = "bad" then NOT_VALID else UNKNOWN }

/-- A sample catalog holding a good and a bad identifier, the good one
carrying one tag. -/
def demoCatalog : Catalog :=
  { members := ["good", "bad"], tagRows := ["t"], links := [("good", "t")] }

/-- The built-in file scanner's check
(fracture/built-in/filescanner.py lines 78-99), with the IndexError a
python index access may raise embedded as the error case, and
os.path.exists passed in as the pathExists oracle: identifiers shorter
than two characters are UNKNOWN; a second character other than a colon
is UNKNOWN; otherwise the third character is read — raising IndexError
on a two-character identifier — and if it is not a slash the result is
UNKNOWN; a drive-style path is NOT_VALID when it no longer exists and
IS_VALID otherwise. -/
def fileScannerCheck (pathExists : String → Bool) (identifier : String) :
    Except Unit Nat :=
  match identifier.data with
  | c0 :: c1 :: rest =>
    if c1 ≠ ':' then .ok UNKNOWN
    else
      match rest with
      | [] => .error ()
      | c2 :: _ =>
        if c2 ≠ '\\' ∧ c2 ≠ '/' then .ok UNKNOWN
        else if !(pathExists identifier) then .ok NOT_VALID
        else .ok IS_VALID
  | _ => .ok UNKNOWN

/-- Python dict.get after an assignment to the same key returns the
assigned value, even when that value is None. -/
theorem dictGet_dictSet_self (d : SettingsDict) (k : String) (v dflt : PyVal) :
    dictGet (dictSet d k v) k dflt = v := by
  induction d with
  | nil => simp [dictSet, dictGet]
  | cons kv rest ih =>
    by_cases h : kv.1 = k
    · simp [dictSet, dictGet, h]
    · simp [dictSet, dictGet, h, ih]

/-- C10: the built-in file scanner's check is not total — an identifier
of length exactly two whose second character is a colon raises
IndexError when the third character is read; any identifier whose second
character is not a colon gets UNKNOWN; and a NOT_VALID verdict can only
arise for a drive-style path (colon second, slash third) that no longer
exists, so pruning through this scanner only ever removes such paths. -/
theorem fileScannerCheck_partial_total (pathExists : String → Bool) (s : String) :
    (s.data.length = 2 → s.data.get? 1 = some ':' →
      fileScannerCheck pathExists s = .error ())
    ∧ (s.data.get? 1 ≠ some ':' → fileScannerCheck pathExists s = .ok UNKNOWN)
    ∧ (fileScannerCheck pathExists s = .ok NOT_VALID →
        s.data.get? 1 = some ':'
        ∧ (s.data.get? 2 = some '\\' ∨ s.data.get? 2 = some '/')
        ∧ pathExists s = false) := by
  rcases hl : s.data with _ | ⟨c0, _ | ⟨c1, _ | ⟨c2, rest⟩⟩⟩
  · refine ⟨?_, ?_, ?_⟩
    · intro h; simp [hl] at h
    · intro _; simp [fileScannerCheck, hl]
    · intro h; simp [fileScannerCheck, hl, UNKNOWN, NOT_VALID] at h
  · refine ⟨?_, ?_, ?_⟩
    · intro h; simp [hl] at h
    · intro _; simp [fileScannerCheck, hl]
    · intro h; simp [fileScannerCheck, hl, UNKNOWN, NOT_VALID] at h
  · by_cases hc : c1 = ':'
    · subst hc
      refine ⟨?_, ?_, ?_⟩
      · intro _ _; simp [fileScannerCheck, hl]
      · intro h; simp [hl] at h
      · intro h; simp [fileScannerCheck, hl] at h
    · refine ⟨?_, ?_, ?_⟩
      · intro _ hcol; simp [hl, hc] at hcol
      · intro _; simp [fileScannerCheck, hl, hc]
      · intro h; simp [fileScannerCheck, hl, hc, UNKNOWN, NOT_VALID] at h
  · by_cases hc : c1 = ':'
    · subst hc
      refine ⟨?_, ?_, ?_⟩
      · intro h; simp [hl] at h
      · intro h; simp [hl] at h
      · intro h
        by_cases hs2 : c2 ≠ '\\' ∧ c2 ≠ '/'
        · simp [fileScannerCheck, hl, hs2, UNKNOWN, NOT_VALID] at h
        · push_neg at hs2
          by_cases hex : pathExists s
          · simp [fileScannerCheck, hl, hs2, hex, IS_VALID, NOT_VALID] at h
            by_cases h1 : c2 = '\\'
            · simp [h1] at h
            · simp [h1] at h
              exact absurd h (by simp [hs2 h1])
          · refine ⟨by simp [hl], ?_, by simpa using hex⟩
            by_cases h1 : c2 = '\\'
            · exact Or.inl (by simp [hl, h1])
            · exact Or.inr (by simp [hl, hs2 h1])
    · refine ⟨?_, ?_, ?_⟩
      · intro h; simp [hl] at h
      · intro _; simp [fileScannerCheck, hl, hc]
      · intro h; simp [fileScannerCheck, hl, hc, UNKNOWN, NOT_VALID] at h

/-- Witness for C10: the drive prefix alone raises, and a plain
two-character identifier is UNKNOWN. -/
theorem fileScannerCheck_partial_total_witness :
    fileScannerCheck (fun _ => false) "c:" = .error ()
    ∧ fileScannerCheck (fun _ => false) "ab" = .ok UNKNOWN := by
  refine ⟨?_, ?_⟩
  · exact (fileScannerCheck_partial_total (fun _ => false) "c:").1 (by decide) (by decide)
  · exact (fileScannerCheck_partial_total (fun _ => false) "ab").2.1 (by decide)

/-- C9: with a non-empty stored list under the key, removing one of its
entries stores the return value of list.remove — None — as the key's
value, so the subsequent accessor returns None instead of the remaining
list; this holds alike for scan locations, skip regexes and plugin
locations. -/
theorem removeLocation_stores_none (db : SettingsDict) (item : String) :
    (∀ xs, scanLocationsOf db = .pyList xs → item ∈ xs →
      ∃ db2, removeScanLocation db item = .ok db2 ∧ scanLocationsOf db2 = .pyNone)
    ∧ (∀ xs, skipRegexesOf db = .pyList xs → item ∈ xs →
      ∃ db2, removeSkipRegex db item = .ok db2 ∧ skipRegexesOf db2 = .pyNone)
    ∧ (∀ xs, pluginLocationsOf db = .pyList xs → item ∈ xs →
      ∃ db2, removePluginLocation db item = .ok db2 ∧ pluginLocationsOf db2 = .pyNone) := by
  refine ⟨?_, ?_, ?_⟩ <;> intro xs h hm
  · refine ⟨dictSet db "scan_locations" .pyNone, ?_, ?_⟩
    · unfold removeScanLocation removeSettingKey
      unfold scanLocationsOf at h
      rw [h]
      simp [hm]
    · exact dictGet_dictSet_self db "scan_locations" .pyNone (.pyList [])
  · refine ⟨dictSet db "skip_regex" .pyNone, ?_, ?_⟩
    · unfold removeSkipRegex removeSettingKey
      unfold skipRegexesOf at h
      rw [h]
      simp [hm]
    · exact dictGet_dictSet_self db "skip_regex" .pyNone (.pyList [])
  · refine ⟨dictSet db "plugin_locations" .pyNone, ?_, ?_⟩
    · unfold removePluginLocation removeSettingKey
      unfold pluginLocationsOf at h
      rw [h]
      simp [hm]
    · exact dictGet_dictSet_self db "plugin_locations" .pyNone (.pyList [])

/-- Witness for C9 on a settings dictionary storing a one-element list
under each of the three keys. -/
theorem removeLocation_stores_none_witness :
    (∃ db2, removeScanLocation
        [("scan_locations", PyVal.pyList ["a"]), ("skip_regex", PyVal.pyList ["a"]),
         ("plugin_locations", PyVal.pyList ["a"])] "a" = .ok db2
      ∧ scanLocationsOf db2 = .pyNone)
    ∧ (∃ db2, removeSkipRegex
        [("scan_locations", PyVal.pyList ["a"]), ("skip_regex", PyVal.pyList ["a"]),
         ("plugin_locations", PyVal.pyList ["a"])] "a" = .ok db2
      ∧ skipRegexesOf db2 = .pyNone)
    ∧ (∃ db2, removePluginLocation
        [("scan_locations", PyVal.pyList ["a"]), ("skip_regex", PyVal.pyList ["a"]),
         ("plugin_locations", PyVal.pyList ["a"])] "a" = .ok db2
      ∧ pluginLocationsOf db2 = .pyNone) := by
  refine ⟨?_, ?_, ?_⟩
  · exact (removeLocation_stores_none
      [("scan_locations", PyVal.pyList ["a"]), ("skip_regex", PyVal.pyList ["a"]),
       ("plugin_locations", PyVal.pyList ["a"])] "a").1 ["a"] (by decide) (by decide)
  · exact (removeLocation_stores_none
      [("scan_locations", PyVal.pyList ["a"]), ("skip_regex", PyVal.pyList ["a"]),
       ("plugin_locations", PyVal.pyList ["a"])] "a").2.1 ["a"] (by decide) (by decide)
  · exact (removeLocation_stores_none
      [("scan_locations", PyVal.pyList ["a"]), ("skip_regex", PyVal.pyList ["a"]),
       ("plugin_locations", PyVal.pyList ["a"])] "a").2.2 ["a"] (by decide) (by decide)

/-- Counterexample for C7: a stored but malformed settings blob makes
settings propagate the decode error instead of returning the empty map
— only IndexError is caught. -/
theorem settings_raises_on_malformed :
    projectSettings demoLoads [] ["not json"] = .error JsonErr.decodeError := by
  rfl

/-- C7 amended: settings returns the empty map exactly when no settings
row is stored (the IndexError path); when a row is stored, the result is
whatever the json decoder yields on the blob, including its failure. -/
theorem settings_empty_or_decode {α : Type} (loads : String → Except JsonErr α)
    (emptyMap : α) (results : List String) :
    (results = [] → projectSettings loads emptyMap results = .ok emptyMap)
    ∧ (∀ blob rest, results = blob :: rest →
        projectSettings loads emptyMap results = loads blob) := by
  constructor
  · intro h; subst h; rfl
  · intro blob rest h; subst h; rfl

/-- Witness for C7 at an empty result set and at a stored well-formed
blob. -/
theorem settings_empty_or_decode_witness :
    projectSettings demoLoads ([] : List String) [] = .ok []
    ∧ projectSettings demoLoads ([] : List String) ["[]"] = demoLoads "[]" := by
  constructor
  · exact (settings_empty_or_decode demoLoads [] []).1 rfl
  · exact (settings_empty_or_decode demoLoads [] ["[]"]).2 "[]" [] rfl

/-- Counterexample for C5: tagging with an uppercase tag stores the
lowercased link, but untag removes the tag string as given, so the
tag-then-untag sequence leaves the assignment in place. -/
theorem tag_untag_case_mismatch :
    projectUntag (projectTag [] "i" ["A"]) "i" ["A"] = [("i", "a")] := by
  decide

/-- C5 amended: tag lowercases each given tag before inserting, while
untag removes the exact string it is given, so tag-then-untag removes
the assignment precisely when the tag is already lowercase; repeated tag
calls with the same tag are no-ops. -/
theorem tag_lower_untag_exact (links : List (String × String)) (id t : String) :
    (pyLower t = t →
      (id, pyLower t) ∉ projectUntag (projectTag links id [t]) id [t])
    ∧ projectTag (projectTag links id [t]) id [t] = projectTag links id [t] := by
  constructor
  · intro h hmem
    rw [h] at hmem
    simp only [projectUntag, List.foldl_cons, List.foldl_nil, List.mem_filter] at hmem
    simp at hmem
  · by_cases hmem : (id, pyLower t) ∈ links
    · simp [projectTag, hmem]
    · simp [projectTag, hmem]

/-- Witness for C5 at an already-lowercase tag on an empty link table. -/
theorem tag_lower_untag_exact_witness :
    ("i", pyLower "a") ∉ projectUntag (projectTag [] "i" ["a"]) "i" ["a"] :=
  (tag_lower_untag_exact [] "i" "a").1 (by decide)

/-- Signal.emit succeeds when every connected subscriber succeeds on the
argument. -/
theorem emitSignal_ok {α : Type} (subs : List (α → Except String Unit)) (a : α)
    (h : ∀ f ∈ subs, f a = .ok ()) : emitSignal subs a = .ok () := by
  induction subs with
  | nil => rfl
  | cons f fs ih =>
    have hf : f a = .ok () := h f (List.mem_cons_self f fs)
    simp only [emitSignal, hf]
    exact ih (fun g hg => h g (List.mem_cons_of_mem f hg))

/-- The discovery loop, when no subscriber raises on any yielded
identifier, appends one scanned event per occurrence in order and
reports no failure. -/
theorem scanLoop_ok (subs : List (String → Except String Unit)) (L : List String)
    (log : List ScanEvent)
    (h : ∀ f ∈ subs, ∀ id ∈ L, f id = .ok ()) :
    scanLoop subs L log = (log ++ L.map ScanEvent.scanned, none) := by
  induction L generalizing log with
  | nil => simp [scanLoop]
  | cons id rest ih =>
    have hid : emitSignal subs id = .ok () :=
      emitSignal_ok subs id (fun f hf => h f hf id (List.mem_cons_self id rest))
    simp only [scanLoop, hid]
    rw [ih (log ++ [ScanEvent.scanned id])
      (fun f hf i hi => h f hf i (List.mem_cons_of_mem id hi))]
    simp

/-- One scan pass, when no subscriber raises, produces the scanned events
in discovery order followed by a single terminal scan_complete, with no
propagated failure. -/
theorem scanRun_no_failure (subs : List (String → Except String Unit))
    (csubs : List (Unit → Except String Unit)) (discovered : List String)
    (h1 : ∀ f ∈ subs, ∀ id ∈ discovered, f id = .ok ())
    (h2 : ∀ f ∈ csubs, f () = .ok ()) :
    scanRun subs csubs discovered
      = (discovered.map ScanEvent.scanned ++ [ScanEvent.scanComplete], none) := by
  unfold scanRun
  rw [scanLoop_ok subs discovered [] h1]
  simp only [List.nil_append]
  rw [emitSignal_ok csubs () h2]

/-- Counterexample for C6: a connected scanned-signal subscriber that
raises aborts the scan — the exception propagates and the scan_complete
event never fires. -/
theorem scan_aborts_on_raising_subscriber :
    scanRun [fun _ => Except.error "boom"] [] ["x"]
      = ([ScanEvent.scanned "x"], some "boom")
    ∧ (scanRun [fun _ => Except.error "boom"] [] ["x"]).1.count
        ScanEvent.scanComplete = 0 := by
  constructor
  · rfl
  · rfl

/-- C6 amended: Project.scan emits scan_complete exactly once, at the
end of the pass, provided no connected subscriber raises; a raising
subscriber is not isolated — Signal.emit propagates its exception and
the scan aborts without emitting scan_complete. -/
theorem scan_complete_once_when_no_raise (subs : List (String → Except String Unit))
    (csubs : List (Unit → Except String Unit)) (discovered : List String)
    (h1 : ∀ f ∈ subs, ∀ id ∈ discovered, f id = .ok ())
    (h2 : ∀ f ∈ csubs, f () = .ok ()) :
    (scanRun subs csubs discovered).2 = none
    ∧ (scanRun subs csubs discovered).1.count ScanEvent.scanComplete = 1
    ∧ (scanRun subs csubs discovered).1.getLast? = some ScanEvent.scanComplete := by
  rw [scanRun_no_failure subs csubs discovered h1 h2]
  refine ⟨rfl, ?_, ?_⟩
  · rw [List.count_append]
    have : (discovered.map ScanEvent.scanned).count ScanEvent.scanComplete = 0 := by
      rw [List.count_eq_zero]
      intro hmem
      rcases List.mem_map.mp hmem with ⟨i, _, hi⟩
      exact ScanEvent.noConfusion hi
    rw [this]
    rfl
  · rw [List.getLast?_append]
    rfl

/-- Witness for C6 with one succeeding subscriber on each signal and one
discovered identifier. -/
theorem scan_complete_once_when_no_raise_witness :
    (scanRun [fun _ => Except.ok ()] [fun _ => Except.ok ()] ["x"]).2 = none
    ∧ (scanRun [fun _ => Except.ok ()] [fun _ => Except.ok ()] ["x"]).1.count
        ScanEvent.scanComplete = 1
    ∧ (scanRun [fun _ => Except.ok ()] [fun _ => Except.ok ()] ["x"]).1.getLast?
        = some ScanEvent.scanComplete := by
  exact scan_complete_once_when_no_raise
    [fun _ => Except.ok ()] [fun _ => Except.ok ()] ["x"]
    (by intro f hf id hid; simp at hf; subst hf; rfl)
    (by intro f hf; simp at hf; subst hf; rfl)

/-- Counterexample for C8: one identifier yielded by two scan plugins
fires the scanned event twice within one pass — there is no
per-identifier deduplication. -/
theorem scanned_fires_twice_on_duplicate :
    (scanRun [] [] (scanDiscover
        [{ can_represent := fun _ => true, identifiers := fun _ => ["x"],
           check := fun _ => UNKNOWN },
         { can_represent := fun _ => true, identifiers := fun _ => ["x"],
           check := fun _ => UNKNOWN }] ["loc"])).1.count
      (ScanEvent.scanned "x") = 2 := by
  rfl

/-- C8 amended: within one pass the scanned event fires once per yielded
identifier occurrence, in discovery order — an identifier yielded by
several plugins or reached from several locations fires once per
occurrence, and the pass ends with the single scan_complete event. -/
theorem scanned_fires_per_occurrence (plugins : List ScanPlugin)
    (locations : List String) :
    scanRun [] [] (scanDiscover plugins locations)
      = ((scanDiscover plugins locations).map ScanEvent.scanned
          ++ [ScanEvent.scanComplete], none) :=
  scanRun_no_failure [] [] (scanDiscover plugins locations)
    (by intro f hf; exact absurd hf (List.not_mem_nil f))
    (by intro f hf; exact absurd hf (List.not_mem_nil f))

/-- Counterexample for C4: the star string is not special-cased — it is
wrapped into the ordinary tag list and fed to the dual predicate, so on
a catalog holding one identifier with no tags, find star returns
nothing while find None returns everything. -/
theorem find_star_not_wildcard :
    projectFind [{ identifier := "a", name := "a" }] [] (some ["*"]) none = []
    ∧ projectFind [{ identifier := "a", name := "a" }] [] none none = ["a"] := by
  constructor
  · decide
  · decide

/-- C4 amended: for a non-empty tag list, find returns exactly the
identifiers of rows satisfying the dual predicate — some assigned tag
exactly equals a given tag, or the identifier and the display name each
contain every given tag as a substring; find None returns every
identifier up to the default limit; the star string is not a wildcard
but an ordinary one-element tag list. -/
theorem find_dual_semantics (rows : List ElementRow) (links : List (String × String))
    (ts : List String) (hne : ts ≠ []) (hlen : rows.length ≤ 9 ^ 9) :
    (∀ id, id ∈ projectFind rows links (some ts) none ↔
      ∃ r ∈ rows, r.identifier = id ∧
        ((∃ t ∈ assignedTags links id, t ∈ ts) ∨
         (∀ g ∈ ts, hasSub id g = true ∧ hasSub r.name g = true)))
    ∧ projectFind rows links none none = rows.map (fun r => r.identifier) := by
  have hie : ts.isEmpty = false := by
    cases ts with
    | nil => exact absurd rfl hne
    | cons a l => rfl
  constructor
  · intro id
    have hsome : projectFind rows links (some ts) none
        = (rows.filter (findRowMatch links ts)).map (fun r => r.identifier) := by
      simp only [projectFind, hie, Bool.false_eq_true, if_false, Option.getD_none]
      apply List.take_of_length_le
      rw [List.length_map]
      exact le_trans (List.length_filter_le _ _) hlen
    rw [hsome]
    constructor
    · intro hmem
      rcases List.mem_map.mp hmem with ⟨r, hr, hid⟩
      rcases List.mem_filter.mp hr with ⟨hrrows, hmatch⟩
      refine ⟨r, hrrows, hid, ?_⟩
      rw [← hid]
      unfold findRowMatch at hmatch
      rw [Bool.or_eq_true] at hmatch
      rcases hmatch with h | h
      · left
        rcases List.any_eq_true.mp h with ⟨t, ht, htt⟩
        exact ⟨t, ht, by simpa using htt⟩
      · right
        rw [Bool.and_eq_true] at h
        rcases h with ⟨h1, h2⟩
        intro g hg
        exact ⟨List.all_eq_true.mp h1 g hg, List.all_eq_true.mp h2 g hg⟩
    · rintro ⟨r, hrrows, hid, hdual⟩
      refine List.mem_map.mpr ⟨r, List.mem_filter.mpr ⟨hrrows, ?_⟩, hid⟩
      unfold findRowMatch
      rw [Bool.or_eq_true]
      rcases hdual with ⟨t, ht, htt⟩ | hall
      · left
        rw [hid]
        exact List.any_eq_true.mpr ⟨t, ht, by simpa using htt⟩
      · right
        rw [Bool.and_eq_true]
        constructor
        · exact List.all_eq_true.mpr (fun g hg => by rw [hid]; exact (hall g hg).1)
        · exact List.all_eq_true.mpr (fun g hg => (hall g hg).2)
  · simp only [projectFind, Option.getD_none]
    apply List.take_of_length_le
    rw [List.length_map]
    exact hlen

/-- Witness for C4 on a one-row catalog whose identifier carries the tag
x: the tag branch of the dual predicate admits it. -/
theorem find_dual_semantics_witness :
    "ab" ∈ projectFind [{ identifier := "ab", name := "ab" }] [("ab", "x")]
      (some ["x"]) none
    ∧ projectFind [{ identifier := "ab", name := "ab" }] [("ab", "x")] none none
      = ["ab"] := by
  have h := find_dual_semantics [{ identifier := "ab", name := "ab" }] [("ab", "x")]
    ["x"] (by decide) (by decide)
  constructor
  · exact (h.1 "ab").mpr
      ⟨{ identifier := "ab", name := "ab" }, List.mem_singleton.mpr rfl, rfl,
        Or.inl ⟨"x", by decide, by decide⟩⟩
  · exact h.2

/-- Invariant of the fold keeping the best plugin of one kind: a
returned plugin comes from the list or the seed, has maximal version
among same-kind list entries, dominates the seed's version, and is of
the requested kind whenever the seed is. -/
theorem bestAux_spec (k : String) (l : List DataPlugin) :
    ∀ (best : Option DataPlugin) (p : DataPlugin), bestAux k best l = some p →
      (p ∈ l ∨ best = some p)
      ∧ (∀ q ∈ l, q.data_type = k → q.version ≤ p.version)
      ∧ (∀ b, best = some b → b.version ≤ p.version)
      ∧ ((∀ b, best = some b → b.data_type = k) → p.data_type = k) := by
  induction l with
  | nil =>
    intro best p h
    simp only [bestAux] at h
    refine ⟨Or.inr h, by simp, ?_, ?_⟩
    · intro b hb
      rw [hb] at h
      cases h
      exact le_refl _
    · intro hk
      exact hk p h
  | cons a l ih =>
    intro best p h
    simp only [bestAux] at h
    by_cases ha : a.data_type = k
    · rw [if_pos ha] at h
      cases best with
      | none =>
        obtain ⟨h1, h2, h3, h4⟩ := ih (some a) p h
        refine ⟨?_, ?_, ?_, ?_⟩
        · rcases h1 with hp | hp
          · exact Or.inl (List.mem_cons_of_mem a hp)
          · exact Or.inl (by rw [← Option.some.inj hp]; exact List.mem_cons_self a l)
        · intro q hq hqk
          rcases List.mem_cons.mp hq with rfl | hq2
          · exact h3 q rfl
          · exact h2 q hq2 hqk
        · intro b hb
          cases hb
        · intro _
          exact h4 (fun b hb => Option.some.inj hb ▸ ha)
      | some b =>
        dsimp only at h
        by_cases hv : b.version < a.version
        · rw [if_pos hv] at h
          obtain ⟨h1, h2, h3, h4⟩ := ih (some a) p h
          refine ⟨?_, ?_, ?_, ?_⟩
          · rcases h1 with hp | hp
            · exact Or.inl (List.mem_cons_of_mem a hp)
            · exact Or.inl (by rw [← Option.some.inj hp]; exact List.mem_cons_self a l)
          · intro q hq hqk
            rcases List.mem_cons.mp hq with rfl | hq2
            · exact h3 q rfl
            · exact h2 q hq2 hqk
          · intro b2 hb2
            cases Option.some.inj hb2
            exact le_trans (le_of_lt hv) (h3 a rfl)
          · intro _
            exact h4 (fun b2 hb2 => Option.some.inj hb2 ▸ ha)
        · rw [if_neg hv] at h
          obtain ⟨h1, h2, h3, h4⟩ := ih (some b) p h
          push_neg at hv
          refine ⟨?_, ?_, ?_, ?_⟩
          · rcases h1 with hp | hp
            · exact Or.inl (List.mem_cons_of_mem a hp)
            · exact Or.inr hp
          · intro q hq hqk
            rcases List.mem_cons.mp hq with rfl | hq2
            · exact le_trans hv (h3 b rfl)
            · exact h2 q hq2 hqk
          · exact h3
          · exact h4
    · rw [if_neg ha] at h
      obtain ⟨h1, h2, h3, h4⟩ := ih best p h
      refine ⟨?_, ?_, h3, h4⟩
      · rcases h1 with hp | hp
        · exact Or.inl (List.mem_cons_of_mem a hp)
        · exact Or.inr hp
      · intro q hq hqk
        rcases List.mem_cons.mp hq with rfl | hq2
        · exact absurd hqk ha
        · exact h2 q hq2 hqk

/-- The plugin selected for one kind is a registered plugin of that kind
whose version dominates every registered plugin of the kind. -/
theorem bestForKind_spec (regs : List DataPlugin) (k : String) (p : DataPlugin)
    (h : bestForKind regs k = some p) :
    p ∈ regs ∧ p.data_type = k
    ∧ ∀ q ∈ regs, q.data_type = k → q.version ≤ p.version := by
  obtain ⟨h1, h2, h3, h4⟩ := bestAux_spec k regs none p h
  refine ⟨?_, ?_, h2⟩
  · rcases h1 with hp | hp
    · exact hp
    · cases hp
  · exact h4 (fun b hb => by cases hb)

/-- Every member of the deduplicated factory plugin list is the selected
plugin of its own kind. -/
theorem bestForKind_of_mem_factoryPlugins (regs : List DataPlugin) (p : DataPlugin)
    (h : p ∈ factoryPlugins regs) : bestForKind regs p.data_type = some p := by
  rcases List.mem_filterMap.mp h with ⟨k, hk, hbk⟩
  have hkind := (bestForKind_spec regs k p hbk).2.1
  rw [hkind]
  exact hbk

/-- Membership in a composite implies membership in the deduplicated
factory plugin list. -/
theorem mem_factoryPlugins_of_mem_projectGet (regs : List DataPlugin)
    (identifier : String) (p : DataPlugin) (h : p ∈ projectGet regs identifier) :
    p ∈ factoryPlugins regs := by
  have h1 := (List.mem_filter.mp h).1
  unfold dataPluginsSorted at h1
  exact (List.perm_insertionSort _ (factoryPlugins regs)).mem_iff.mp h1

/-- C1: the composite Project.get builds contains at most one plugin per
data_type kind, and any plugin it contains dominates the version of
every registered plugin of the same kind — in particular of every
same-kind plugin able to represent the identifier — so a lower-version
plugin of a kind never participates in the binding. -/
theorem get_version_resolution (regs : List DataPlugin) (identifier : String) :
    (∀ p ∈ projectGet regs identifier, ∀ q ∈ regs,
        q.data_type = p.data_type → q.can_represent identifier = true →
        q.version ≤ p.version)
    ∧ (∀ p ∈ projectGet regs identifier, ∀ q ∈ projectGet regs identifier,
        q.data_type = p.data_type → p = q) := by
  constructor
  · intro p hp q hq hkind _
    have hf := mem_factoryPlugins_of_mem_projectGet regs identifier p hp
    have hb := bestForKind_of_mem_factoryPlugins regs p hf
    exact (bestForKind_spec regs p.data_type p hb).2.2 q hq hkind
  · intro p hp q hq hkind
    have hbp := bestForKind_of_mem_factoryPlugins regs p
      (mem_factoryPlugins_of_mem_projectGet regs identifier p hp)
    have hbq := bestForKind_of_mem_factoryPlugins regs q
      (mem_factoryPlugins_of_mem_projectGet regs identifier q hq)
    rw [hkind] at hbq
    exact Option.some.inj (hbp.symm.trans hbq)

/-- Witness for C1: with versions 1 and 2 of kind k registered, the
composite for an identifier both can represent holds version 2 and
dominates version 1. -/
theorem get_version_resolution_witness :
    demoTraitV2 ∈ projectGet [demoTraitV1, demoTraitV2] "x"
    ∧ demoTraitV1.version ≤ demoTraitV2.version := by
  have heq : projectGet [demoTraitV1, demoTraitV2] "x" = [demoTraitV2] := by rfl
  have hmem : demoTraitV2 ∈ projectGet [demoTraitV1, demoTraitV2] "x" := by
    rw [heq]
    exact List.mem_singleton.mpr rfl
  refine ⟨hmem, ?_⟩
  exact (get_version_resolution [demoTraitV1, demoTraitV2] "x").1 demoTraitV2 hmem
    demoTraitV1 (List.mem_cons_self _ _) rfl rfl

/-- Membership after one idempotent add. -/
theorem mem_members_catalogAdd (c : Catalog) (a x : String) :
    x ∈ (catalogAdd c a).members ↔ x ∈ c.members ∨ x = a := by
  unfold catalogAdd
  by_cases h : a ∈ c.members
  · rw [if_pos h]
    exact ⟨Or.inl, fun hx => hx.elim id (fun hxa => by rw [hxa]; exact h)⟩
  · rw [if_neg h]
    simp [List.mem_append]

/-- Add touches no links. -/
theorem links_catalogAdd (c : Catalog) (a : String) :
    (catalogAdd c a).links = c.links := by
  unfold catalogAdd
  split <;> rfl

/-- Membership after a discovery fold of adds. -/
theorem mem_members_foldl_add (L : List String) (c : Catalog) (x : String) :
    x ∈ (L.foldl catalogAdd c).members ↔ x ∈ c.members ∨ x ∈ L := by
  induction L generalizing c with
  | nil => simp
  | cons a L ih =>
    rw [List.foldl_cons, ih (catalogAdd c a), mem_members_catalogAdd]
    simp [List.mem_cons, or_assoc]

/-- A discovery fold of adds touches no links. -/
theorem links_foldl_add (L : List String) (c : Catalog) :
    (L.foldl catalogAdd c).links = c.links := by
  induction L generalizing c with
  | nil => rfl
  | cons a L ih => rw [List.foldl_cons, ih, links_catalogAdd]

/-- Tag-row insertion touches no members. -/
theorem members_tagInsert (c : Catalog) (t : String) :
    (tagInsert c t).members = c.members := by
  unfold tagInsert
  split <;> rfl

/-- Tag-row insertion touches no links. -/
theorem links_tagInsert (c : Catalog) (t : String) :
    (tagInsert c t).links = c.links := by
  unfold tagInsert
  split <;> rfl

/-- A fold of tag-row insertions touches no members. -/
theorem members_foldl_tagInsert (L : List String) (c : Catalog) :
    (L.foldl tagInsert c).members = c.members := by
  induction L generalizing c with
  | nil => rfl
  | cons a L ih => rw [List.foldl_cons, ih, members_tagInsert]

/-- A fold of tag-row insertions touches no links. -/
theorem links_foldl_tagInsert (L : List String) (c : Catalog) :
    (L.foldl tagInsert c).links = c.links := by
  induction L generalizing c with
  | nil => rfl
  | cons a L ih => rw [List.foldl_cons, ih, links_tagInsert]

/-- Linking touches no members. -/
theorem members_tagConnect (c : Catalog) (id t : String) :
    (tagConnect c id t).members = c.members := by
  unfold tagConnect
  split <;> rfl

/-- Link membership after one idempotent link insert. -/
theorem mem_links_tagConnect (c : Catalog) (id t : String) (x : String × String) :
    x ∈ (tagConnect c id t).links ↔ x ∈ c.links ∨ x = (id, t) := by
  unfold tagConnect
  by_cases h : (id, t) ∈ c.links
  · rw [if_pos h]
    exact ⟨Or.inl, fun hx => hx.elim (fun hc => hc) (fun hxa => by rw [hxa]; exact h)⟩
  · rw [if_neg h]
    simp [List.mem_append]

/-- Linking one identifier to a tag list touches no members. -/
theorem members_linkAll (c : Catalog) (id : String) (ts : List String) :
    (linkAll c id ts).members = c.members := by
  induction ts generalizing c with
  | nil => rfl
  | cons t ts ih =>
    have hstep : linkAll c id (t :: ts) = linkAll (tagConnect c id t) id ts := rfl
    rw [hstep, ih, members_tagConnect]

/-- Link membership after linking one identifier to a tag list. -/
theorem mem_links_linkAll (c : Catalog) (id : String) (ts : List String)
    (x : String × String) :
    x ∈ (linkAll c id ts).links ↔ x ∈ c.links ∨ (x.1 = id ∧ x.2 ∈ ts) := by
  induction ts generalizing c with
  | nil => simp [linkAll]
  | cons t ts ih =>
    have hstep : linkAll c id (t :: ts) = linkAll (tagConnect c id t) id ts := rfl
    rw [hstep, ih, mem_links_tagConnect]
    constructor
    · rintro ((hx | rfl) | ⟨h1, h2⟩)
      · exact Or.inl hx
      · exact Or.inr ⟨rfl, List.mem_cons_self _ _⟩
      · exact Or.inr ⟨h1, List.mem_cons_of_mem t h2⟩
    · rintro (hx | ⟨h1, h2⟩)
      · exact Or.inl (Or.inl hx)
      · rcases List.mem_cons.mp h2 with h2 | h2
        · exact Or.inl (Or.inr (Prod.ext_iff.mpr ⟨h1, h2⟩))
        · exact Or.inr ⟨h1, h2⟩

/-- The linking fold over the mapped identifiers touches no members. -/
theorem members_foldl_linkAll (M : List String) (f : String → List String)
    (c : Catalog) :
    (M.foldl (fun acc id => linkAll acc id (f id)) c).members = c.members := by
  induction M generalizing c with
  | nil => rfl
  | cons a M ih => rw [List.foldl_cons, ih, members_linkAll]

/-- Link membership after the linking fold over the mapped identifiers. -/
theorem mem_links_foldl_linkAll (M : List String) (f : String → List String)
    (c : Catalog) (x : String × String) :
    x ∈ (M.foldl (fun acc id => linkAll acc id (f id)) c).links
      ↔ x ∈ c.links ∨ (x.1 ∈ M ∧ x.2 ∈ f x.1) := by
  induction M generalizing c with
  | nil => simp
  | cons a M ih =>
    rw [List.foldl_cons, ih, mem_links_linkAll]
    constructor
    · rintro ((hx | ⟨h1, h2⟩) | ⟨h1, h2⟩)
      · exact Or.inl hx
      · refine Or.inr ⟨?_, ?_⟩
        · rw [h1]; exact List.mem_cons_self a M
        · rw [h1]; exact h2
      · exact Or.inr ⟨List.mem_cons_of_mem a h1, h2⟩
    · rintro (hx | ⟨h1, h2⟩)
      · exact Or.inl (Or.inl hx)
      · rcases List.mem_cons.mp h1 with h1 | h1
        · refine Or.inl (Or.inr ⟨h1, ?_⟩)
          rw [← h1]; exact h2
        · exact Or.inr ⟨h1, h2⟩

/-- Membership after one entry removal. -/
theorem mem_members_catalogRemove (c : Catalog) (a x : String) :
    x ∈ (catalogRemove c a).members ↔ x ∈ c.members ∧ x ≠ a := by
  simp [catalogRemove, List.mem_filter]

/-- Link membership after one entry removal. -/
theorem mem_links_catalogRemove (c : Catalog) (a : String) (x : String × String) :
    x ∈ (catalogRemove c a).links ↔ x ∈ c.links ∧ x.1 ≠ a := by
  simp [catalogRemove, List.mem_filter]

/-- Membership after the pruning fold over a fixed snapshot list: an
identifier survives unless some plugin judges it NOT_VALID and it occurs
in the snapshot. -/
theorem mem_members_pruneFold (plugins : List ScanPlugin) (L : List String)
    (c : Catalog) (x : String) :
    x ∈ (L.foldl
        (fun acc id => if anyNotValid plugins id then catalogRemove acc id else acc)
        c).members
      ↔ x ∈ c.members ∧ ¬(anyNotValid plugins x = true ∧ x ∈ L) := by
  induction L generalizing c with
  | nil => simp
  | cons a L ih =>
    simp only [List.foldl_cons]
    by_cases hb : anyNotValid plugins a = true
    · rw [if_pos hb, ih, mem_members_catalogRemove]
      constructor
      · rintro ⟨⟨hxc, hxa⟩, hnb⟩
        refine ⟨hxc, ?_⟩
        rintro ⟨hbad, hmem⟩
        rcases List.mem_cons.mp hmem with rfl | hmem2
        · exact hxa rfl
        · exact hnb ⟨hbad, hmem2⟩
      · rintro ⟨hxc, hnb⟩
        by_cases hxa : x = a
        · subst hxa
          exact absurd ⟨hb, List.mem_cons_self x L⟩ hnb
        · refine ⟨⟨hxc, hxa⟩, ?_⟩
          rintro ⟨hbad, hmem⟩
          exact hnb ⟨hbad, List.mem_cons_of_mem a hmem⟩
    · rw [if_neg hb, ih]
      constructor
      · rintro ⟨hxc, hnb⟩
        refine ⟨hxc, ?_⟩
        rintro ⟨hbad, hmem⟩
        rcases List.mem_cons.mp hmem with rfl | hmem2
        · exact hb hbad
        · exact hnb ⟨hbad, hmem2⟩
      · rintro ⟨hxc, hnb⟩
        refine ⟨hxc, ?_⟩
        rintro ⟨hbad, hmem⟩
        exact hnb ⟨hbad, List.mem_cons_of_mem a hmem⟩

/-- Link membership after the pruning fold over a fixed snapshot list. -/
theorem mem_links_pruneFold (plugins : List ScanPlugin) (L : List String)
    (c : Catalog) (x : String × String) :
    x ∈ (L.foldl
        (fun acc id => if anyNotValid plugins id then catalogRemove acc id else acc)
        c).links
      ↔ x ∈ c.links ∧ ¬(anyNotValid plugins x.1 = true ∧ x.1 ∈ L) := by
  induction L generalizing c with
  | nil => simp
  | cons a L ih =>
    simp only [List.foldl_cons]
    by_cases hb : anyNotValid plugins a = true
    · rw [if_pos hb, ih, mem_links_catalogRemove]
      constructor
      · rintro ⟨⟨hxc, hxa⟩, hnb⟩
        refine ⟨hxc, ?_⟩
        rintro ⟨hbad, hmem⟩
        rcases List.mem_cons.mp hmem with heq | hmem2
        · exact hxa heq
        · exact hnb ⟨hbad, hmem2⟩
      · rintro ⟨hxc, hnb⟩
        by_cases hxa : x.1 = a
        · exact absurd ⟨by rw [hxa]; exact hb, by rw [hxa]; exact List.mem_cons_self a L⟩ hnb
        · refine ⟨⟨hxc, hxa⟩, ?_⟩
          rintro ⟨hbad, hmem⟩
          exact hnb ⟨hbad, List.mem_cons_of_mem a hmem⟩
    · rw [if_neg hb, ih]
      constructor
      · rintro ⟨hxc, hnb⟩
        refine ⟨hxc, ?_⟩
        rintro ⟨hbad, hmem⟩
        rcases List.mem_cons.mp hmem with heq | hmem2
        · exact hb (by rw [← heq]; exact hbad)
        · exact hnb ⟨hbad, hmem2⟩
      · rintro ⟨hxc, hnb⟩
        refine ⟨hxc, ?_⟩
        rintro ⟨hbad, hmem⟩
        exact hnb ⟨hbad, List.mem_cons_of_mem a hmem⟩

/-- A tag is assigned to an identifier exactly when the link row
exists. -/
theorem mem_tagsOf (c : Catalog) (id t : String) :
    t ∈ tagsOf c id ↔ (id, t) ∈ c.links := by
  unfold tagsOf
  constructor
  · intro h
    rcases List.mem_map.mp h with ⟨l, hl, hlt⟩
    rcases List.mem_filter.mp hl with ⟨hmem, hfst⟩
    have hfst2 : l.1 = id := by simpa using hfst
    have hlx : l = (id, t) := Prod.ext_iff.mpr ⟨hfst2, hlt⟩
    rwa [hlx] at hmem
  · intro h
    exact List.mem_map.mpr ⟨(id, t), List.mem_filter.mpr ⟨h, by simp⟩, rfl⟩

/-- Membership after the pruning phase: an identifier survives exactly
when no plugin judges it NOT_VALID. -/
theorem mem_members_pruneCatalog (plugins : List ScanPlugin) (c : Catalog)
    (x : String) :
    x ∈ (pruneCatalog plugins c).members
      ↔ x ∈ c.members ∧ anyNotValid plugins x = false := by
  unfold pruneCatalog findAllIds
  rw [mem_members_pruneFold]
  constructor
  · rintro ⟨hm, hn⟩
    refine ⟨hm, ?_⟩
    cases hab : anyNotValid plugins x
    · rfl
    · exact absurd ⟨hab, hm⟩ hn
  · rintro ⟨hm, hn⟩
    refine ⟨hm, ?_⟩
    rintro ⟨hbad, _⟩
    rw [hn] at hbad
    cases hbad

/-- Link membership after the pruning phase. -/
theorem mem_links_pruneCatalog (plugins : List ScanPlugin) (c : Catalog)
    (x : String × String) :
    x ∈ (pruneCatalog plugins c).links
      ↔ x ∈ c.links ∧ ¬(anyNotValid plugins x.1 = true ∧ x.1 ∈ c.members) := by
  unfold pruneCatalog findAllIds
  exact mem_links_pruneFold plugins c.members c x

/-- C3: the pruning phase of a full scan sweeps the entire current
membership — an identifier is removed exactly when some scan plugin's
check returns NOT_VALID for it, and an identifier no plugin judges
NOT_VALID (every verdict IS_VALID or UNKNOWN, or no plugin at all)
stays, with its tag set untouched. -/
theorem prune_full_membership (plugins : List ScanPlugin) (c : Catalog) :
    (∀ id, id ∈ (pruneCatalog plugins c).members
      ↔ id ∈ c.members ∧ anyNotValid plugins id = false)
    ∧ (∀ id, anyNotValid plugins id = false →
        ∀ t, t ∈ tagsOf (pruneCatalog plugins c) id ↔ t ∈ tagsOf c id) := by
  constructor
  · intro id
    exact mem_members_pruneCatalog plugins c id
  · intro id hid t
    rw [mem_tagsOf, mem_tagsOf, mem_links_pruneCatalog]
    constructor
    · rintro ⟨h, _⟩
      exact h
    · intro h
      refine ⟨h, ?_⟩
      rintro ⟨hbad, _⟩
      rw [hid] at hbad
      cases hbad

/-- Witness for C3 on a two-member catalog checked by the demo source:
the bad identifier goes, the good one stays with its tag intact. -/
theorem prune_full_membership_witness :
    ("good" ∈ (pruneCatalog [demoChecker] demoCatalog).members
      ↔ "good" ∈ demoCatalog.members ∧ anyNotValid [demoChecker] "good" = false)
    ∧ ("t" ∈ tagsOf (pruneCatalog [demoChecker] demoCatalog) "good"
      ↔ "t" ∈ tagsOf demoCatalog "good") := by
  constructor
  · exact (prune_full_membership [demoChecker] demoCatalog).1 "good"
  · exact (prune_full_membership [demoChecker] demoCatalog).2 "good" (by decide) "t"

/-- Catalog membership after one full scan: the union of the previous
membership and the discovered identifiers, minus everything some plugin
judges NOT_VALID. -/
theorem mem_members_projectScan (regs : List DataPlugin) (plugins : List ScanPlugin)
    (locations : List String) (c : Catalog) (x : String) :
    x ∈ (projectScan regs plugins locations c).members
      ↔ (x ∈ c.members ∨ x ∈ scanDiscover plugins locations)
        ∧ anyNotValid plugins x = false := by
  simp only [projectScan]
  rw [mem_members_pruneCatalog, members_foldl_linkAll, members_foldl_tagInsert,
    mem_members_foldl_add]

/-- Link rows after one full scan: the previous links plus the mandatory
tags of every discovered identifier with a non-empty composite, minus
the links of identifiers pruned in this pass. -/
theorem mem_links_projectScan (regs : List DataPlugin) (plugins : List ScanPlugin)
    (locations : List String) (c : Catalog) (x : String × String) :
    x ∈ (projectScan regs plugins locations c).links
      ↔ (x ∈ c.links
          ∨ (x.1 ∈ scanDiscover plugins locations
             ∧ (projectGet regs x.1).isEmpty = false
             ∧ x.2 ∈ mandatoryTags regs x.1))
        ∧ ¬(anyNotValid plugins x.1 = true
            ∧ (x.1 ∈ c.members ∨ x.1 ∈ scanDiscover plugins locations)) := by
  have hmap : ∀ y, y ∈ ((scanDiscover plugins locations).filter
      (fun id => !(projectGet regs id).isEmpty)).dedup
      ↔ (y ∈ scanDiscover plugins locations
         ∧ (projectGet regs y).isEmpty = false) := by
    intro y
    rw [List.mem_dedup, List.mem_filter]
    simp
  simp only [projectScan]
  rw [mem_links_pruneCatalog, mem_links_foldl_linkAll, links_foldl_tagInsert,
    links_foldl_add, members_foldl_linkAll, members_foldl_tagInsert,
    mem_members_foldl_add, hmap x.1, and_assoc]

/-- C2: a second full scan over the same locations with the same plugin
outputs is a no-op on persisted state — membership and every
per-identifier tag set match the state after the first scan. -/
theorem scan_idempotent (regs : List DataPlugin) (plugins : List ScanPlugin)
    (locations : List String) (c : Catalog) :
    (∀ id,
      id ∈ (projectScan regs plugins locations
        (projectScan regs plugins locations c)).members
      ↔ id ∈ (projectScan regs plugins locations c).members)
    ∧ (∀ id t,
      t ∈ tagsOf (projectScan regs plugins locations
        (projectScan regs plugins locations c)) id
      ↔ t ∈ tagsOf (projectScan regs plugins locations c) id) := by
  constructor
  · intro id
    simp only [mem_members_projectScan]
    tauto
  · intro id t
    simp only [mem_tagsOf, mem_links_projectScan, mem_members_projectScan]
    tauto
